/-
Verification of the cleaning/aggregation pipeline of `src/data_analysis.py`.

The pipeline operates on an in-memory table of loosely typed records read
from a CSV file.  We embed records as structures whose fields are
`Option String` (a `none` models a pandas null / missing cell), and the
row-wise pandas operations of `load_and_clean_data` and `analyze_data` as
ordinary Lean functions on lists of records.

String primitives used by the Python code are modelled on `List Char`:
  * `str.strip`  -> `dropWhile` / `rdropWhile` on whitespace,
  * `str.split()` (no argument) -> maximal runs of non-whitespace,
  * `re.search(r'(\d{4})', s)` -> scan for the first position at which four
    consecutive digit characters start,
  * `re.findall(r'\b[a-z]{3,15}\b', s)` -> maximal runs of word characters
    that consist solely of 3..15 lowercase letters (see the comment at
    `findallWords`).
Character classes are the ASCII ones (`Char.isDigit`, `Char.isLower`,
`Char.isWhitespace`); the Python originals are Unicode-aware, and the data
handled by the claims is ASCII.
-/
import Mathlib

namespace DataAnalysis

/-- ASCII model of the regex word character class: letters, digits and the
underscore.  Python's word boundary assertion holds between a word character
and a non-word character (or the edge of the string). -/
def isWordChar (c : Char) : Bool := c.isAlpha || c.isDigit || c == '_'

/-! ### Maximal runs of characters satisfying a predicate

`runsBy p cs` is the list of maximal nonempty runs of characters satisfying
`p`, in order; characters failing `p` act as separators.  It is phrased via
`runsBySplit`, a structurally recursive right fold that carries the run
currently being built at the head of the input. -/

/-- Helper for `runsBy`: returns the run of `p`-characters at the head of the
input (possibly empty) together with the remaining maximal runs. -/
def runsBySplit (p : Char → Bool) : List Char → List Char × List (List Char)
  | [] => ([], [])
  | c :: cs =>
    if p c then (c :: (runsBySplit p cs).1, (runsBySplit p cs).2)
    else
      ([], if (runsBySplit p cs).1.isEmpty then (runsBySplit p cs).2
           else (runsBySplit p cs).1 :: (runsBySplit p cs).2)

/-- Maximal nonempty runs of characters satisfying `p`, as delimited by the
characters failing `p`. -/
def runsBy (p : Char → Bool) (cs : List Char) : List (List Char) :=
  if (runsBySplit p cs).1.isEmpty then (runsBySplit p cs).2
  else (runsBySplit p cs).1 :: (runsBySplit p cs).2

theorem runsBySplit_sound (p : Char → Bool) (cs : List Char) :
    (∀ c ∈ (runsBySplit p cs).1, p c = true) ∧
    (∀ w ∈ (runsBySplit p cs).2, w ≠ [] ∧ ∀ c ∈ w, p c = true) := by
  induction cs with
  | nil => exact ⟨by simp [runsBySplit], by simp [runsBySplit]⟩
  | cons c cs ih =>
    obtain ⟨ih1, ih2⟩ := ih
    cases hc : p c with
    | true =>
      refine ⟨?_, ?_⟩
      · intro d hd
        simp only [runsBySplit, hc, if_true] at hd
        rcases List.mem_cons.mp hd with h | h
        · exact h ▸ hc
        · exact ih1 d h
      · intro w hw
        simp only [runsBySplit, hc, if_true] at hw
        exact ih2 w hw
    | false =>
      refine ⟨?_, ?_⟩
      · intro d hd
        simp only [runsBySplit, hc, Bool.false_eq_true, if_false] at hd
        simp at hd
      · intro w hw
        simp only [runsBySplit, hc, Bool.false_eq_true, if_false] at hw
        rcases h1 : (runsBySplit p cs).1.isEmpty with _ | _
        · simp only [h1, Bool.false_eq_true, if_false] at hw
          rcases List.mem_cons.mp hw with h | h
          · subst h
            refine ⟨?_, ih1⟩
            intro hnil
            rw [hnil] at h1
            simp at h1
          · exact ih2 w h
        · simp only [h1, if_true] at hw
          exact ih2 w hw

theorem mem_runsBy {p : Char → Bool} {cs : List Char} {w : List Char}
    (hw : w ∈ runsBy p cs) : w ≠ [] ∧ ∀ c ∈ w, p c = true := by
  unfold runsBy at hw
  obtain ⟨h1, h2⟩ := runsBySplit_sound p cs
  rcases he : (runsBySplit p cs).1.isEmpty with _ | _
  · simp only [he, Bool.false_eq_true, if_false] at hw
    rcases List.mem_cons.mp hw with h | h
    · subst h
      refine ⟨?_, h1⟩
      intro hnil
      rw [hnil] at he
      simp at he
    · exact h2 w h
  · simp only [he, if_true] at hw
    exact h2 w hw

theorem runsBySplit_eq_nil_iff (p : Char → Bool) (cs : List Char) :
    ((runsBySplit p cs).1 = [] ∧ (runsBySplit p cs).2 = []) ↔
      ∀ c ∈ cs, p c = false := by
  induction cs with
  | nil => simp [runsBySplit]
  | cons c cs ih =>
    cases hc : p c with
    | true =>
      simp only [runsBySplit, hc, if_true]
      constructor
      · rintro ⟨h, -⟩
        exact absurd h (List.cons_ne_nil _ _)
      · intro h
        exact absurd (h c (List.mem_cons_self c cs)) (by simp [hc])
    | false =>
      simp only [runsBySplit, hc, Bool.false_eq_true, if_false]
      rcases he : (runsBySplit p cs).1.isEmpty with _ | _
      · simp only [he, Bool.false_eq_true, if_false]
        constructor
        · rintro ⟨-, h⟩
          exact absurd h (List.cons_ne_nil _ _)
        · intro h
          have : (runsBySplit p cs).1 = [] ∧ (runsBySplit p cs).2 = [] :=
            ih.mpr (fun d hd => h d (List.mem_cons_of_mem c hd))
          rw [this.1] at he
          simp at he
      · simp only [he, if_true]
        have h1 : (runsBySplit p cs).1 = [] := List.isEmpty_iff.mp he
        constructor
        · rintro ⟨-, h2⟩
          intro d hd
          rcases List.mem_cons.mp hd with h | h
          · exact h ▸ hc
          · exact (ih.mp ⟨h1, h2⟩) d h
        · intro h
          exact ⟨trivial, (ih.mpr (fun d hd => h d (List.mem_cons_of_mem c hd))).2⟩

theorem runsBy_eq_nil_iff (p : Char → Bool) (cs : List Char) :
    runsBy p cs = [] ↔ ∀ c ∈ cs, p c = false := by
  unfold runsBy
  rcases he : (runsBySplit p cs).1.isEmpty with _ | _
  · simp only [he, Bool.false_eq_true, if_false]
    constructor
    · intro h
      exact absurd h (List.cons_ne_nil _ _)
    · intro h
      have h0 := (runsBySplit_eq_nil_iff p cs).mpr h
      rw [h0.1] at he
      simp at he
  · simp only [he, if_true]
    have h1 : (runsBySplit p cs).1 = [] := List.isEmpty_iff.mp he
    constructor
    · intro h
      exact (runsBySplit_eq_nil_iff p cs).mp ⟨h1, h⟩
    · intro h
      exact ((runsBySplit_eq_nil_iff p cs).mpr h).2

/-! ### Python string primitives -/

/-- Model of Python `str.strip()` on character lists: remove leading and
trailing whitespace (`str.strip()` of line 69 of the source, via pandas
`Series.str.strip`). -/
def pyStripChars (cs : List Char) : List Char :=
  (cs.dropWhile Char.isWhitespace).rdropWhile Char.isWhitespace

/-- Model of Python `str.strip()` on strings. -/
def pyStrip (s : String) : String := ⟨pyStripChars s.data⟩

/-- Model of `len(s.split())` for Python `str.split()` with no separator:
the number of maximal whitespace-delimited tokens (line 64 of the source). -/
def pySplitLen (s : String) : Nat :=
  (runsBy (fun c => !c.isWhitespace) s.data).length

theorem dropWhile_head_not {p : Char → Bool} :
    ∀ {l : List Char} {x : Char} {t : List Char},
      l.dropWhile p = x :: t → p x = false := by
  intro l
  induction l with
  | nil =>
    intro x t h
    simp [List.dropWhile] at h
  | cons a as ih =>
    intro x t h
    cases hpa : p a with
    | true =>
      simp only [List.dropWhile_cons, hpa, if_true] at h
      exact ih h
    | false =>
      simp only [List.dropWhile_cons, hpa, Bool.false_eq_true, if_false] at h
      injection h with h1 h2
      rw [← h1]
      exact hpa

theorem dropWhile_pyStripChars (cs : List Char) :
    (pyStripChars cs).dropWhile Char.isWhitespace = pyStripChars cs := by
  unfold pyStripChars
  rcases hr : (cs.dropWhile Char.isWhitespace).rdropWhile Char.isWhitespace
    with _ | ⟨x, t⟩
  · rfl
  · obtain ⟨s, hs⟩ := List.rdropWhile_prefix Char.isWhitespace
      (cs.dropWhile Char.isWhitespace)
    rw [hr] at hs
    have hu : cs.dropWhile Char.isWhitespace = x :: (t ++ s) := by
      rw [← hs]; rfl
    have hx : Char.isWhitespace x = false := dropWhile_head_not hu
    simp [List.dropWhile_cons, hx]

theorem pyStripChars_idempotent (cs : List Char) :
    pyStripChars (pyStripChars cs) = pyStripChars cs := by
  conv_lhs => rw [pyStripChars, dropWhile_pyStripChars]
  rw [pyStripChars, List.rdropWhile_idempotent]

/-- The head of a nonempty stripped string is not whitespace, hence a nonempty
stripped string contains a non-whitespace character. -/
theorem pyStripChars_has_nonspace {cs : List Char} (h : pyStripChars cs ≠ []) :
    ∃ c ∈ pyStripChars cs, c.isWhitespace = false := by
  rcases hr : pyStripChars cs with _ | ⟨x, t⟩
  · exact absurd hr h
  · refine ⟨x, List.mem_cons_self x t, ?_⟩
    have hd := dropWhile_pyStripChars cs
    rw [hr] at hd
    exact dropWhile_head_not hd

/-! ### Year extraction (`extract_year`, lines 43-54 of the source) -/

/-- Numeric value of a run of digit characters, as computed by Python `int`
on the matched group. -/
def parseDigits (cs : List Char) : Nat :=
  cs.foldl (fun n c => 10 * n + (c.toNat - 48)) 0

/-- Model of `re.search(r'(\d{4})', s)` followed by `int(match.group(1))`:
scan left to right for the first position at which four consecutive digit
characters start, and parse those four digits.  The regex has no boundary
assertions, so the window may sit inside a longer digit run. -/
def searchFourDigits : List Char → Option Nat
  | [] => none
  | a :: rest =>
    match rest with
    | b :: c :: d :: _ =>
      if a.isDigit && b.isDigit && c.isDigit && d.isDigit then
        some (parseDigits [a, b, c, d])
      else searchFourDigits rest
    | _ => none

/-- Model of `extract_year` of the source: a missing (NaN) date gives a
missing year, otherwise the date is treated as text and searched for the
first four consecutive digits; no match gives a missing year. -/
def extract_year : Option String → Option Nat
  | none => none
  | some s => searchFourDigits s.data

/-- Four consecutive digit characters start at position `i` of `cs`. -/
def fourDigitWindowAt (cs : List Char) (i : Nat) : Bool :=
  match cs.drop i with
  | a :: b :: c :: d :: _ => a.isDigit && b.isDigit && c.isDigit && d.isDigit
  | _ => false

theorem fourDigitWindowAt_length {cs : List Char} {i : Nat}
    (h : fourDigitWindowAt cs i = true) : i + 4 ≤ cs.length := by
  unfold fourDigitWindowAt at h
  split at h
  · next a b c d t heq =>
    have hlen : (cs.drop i).length = cs.length - i := List.length_drop i cs
    rw [heq] at hlen
    simp only [List.length_cons] at hlen
    omega
  · exact absurd h (by simp)

theorem searchFourDigits_eq_none {cs : List Char}
    (h : ∀ i, fourDigitWindowAt cs i = false) : searchFourDigits cs = none := by
  induction cs with
  | nil => rfl
  | cons a rest ih =>
    rcases rest with _ | ⟨b, _ | ⟨c, _ | ⟨d, t⟩⟩⟩
    · rfl
    · rfl
    · rfl
    · have h0 := h 0
      have hd : (a.isDigit && b.isDigit && c.isDigit && d.isDigit) = false := h0
      simp only [searchFourDigits, hd, Bool.false_eq_true, if_false]
      exact ih (fun i => h (i + 1))

theorem searchFourDigits_eq_some {cs : List Char} {i : Nat}
    (hi : fourDigitWindowAt cs i = true)
    (hmin : ∀ j < i, fourDigitWindowAt cs j = false) :
    searchFourDigits cs = some (parseDigits ((cs.drop i).take 4)) := by
  induction cs generalizing i with
  | nil =>
    have := fourDigitWindowAt_length hi
    simp at this
  | cons a rest ih =>
    rcases rest with _ | ⟨b, _ | ⟨c, _ | ⟨d, t⟩⟩⟩
    · have := fourDigitWindowAt_length hi
      simp at this
    · have := fourDigitWindowAt_length hi
      simp at this
    · have := fourDigitWindowAt_length hi
      simp at this
    · cases i with
      | zero =>
        have hd : (a.isDigit && b.isDigit && c.isDigit && d.isDigit) = true := hi
        simp only [searchFourDigits, hd, if_true]
        rfl
      | succ i =>
        have h0 : (a.isDigit && b.isDigit && c.isDigit && d.isDigit) = false :=
          hmin 0 (Nat.succ_pos i)
        simp only [searchFourDigits, h0, Bool.false_eq_true, if_false]
        exact ih hi (fun j hj => hmin (j + 1) (Nat.succ_lt_succ hj))

/-! ### Data model -/

/-- Raw Record as read from the CSV file.  Every field is loosely typed and
may be missing; a pandas NaN/None cell is modelled as `none`. -/
structure RawRecord where
  cord_uid : Option String
  title : Option String
  abstract : Option String
  journal : Option String
  publish_time : Option String
  authors : Option String
  url : Option String
  source_x : Option String
  deriving DecidableEq, Repr

/-- Cleaned Record: output row of `load_and_clean_data`.  `title` is known to
be present, `journal` has been filled and stripped, and the derived columns
`year` and `abstract_word_count` have been added. -/
structure CleanedRecord where
  cord_uid : Option String
  title : String
  abstract : Option String
  journal : String
  publish_time : Option String
  authors : Option String
  url : Option String
  source_x : Option String
  year : Nat
  abstract_word_count : Nat
  deriving DecidableEq, Repr

/-- Model of line 64 of the source:
`len(str(x).split()) if pd.notnull(x) else 0`. -/
def abstractWordCount : Option String → Nat
  | some s => pySplitLen s
  | none => 0

/-- Row-wise fusion of the cleaning pipeline, lines 36-69 of the source.  The
pandas steps are all row-local, applied in this order:
`dropna(subset=['title'])` (line 39), `year` derivation via `extract_year`
(line 56), `dropna(subset=['year'])` (line 59), the filter `year > 2000`
(line 60), the `abstract_word_count` column (lines 63-65), and the journal
`fillna('Unknown')` plus `str.strip()` (lines 68-69).  A row surviving all
filters is returned with the derived fields, a dropped row gives `none`. -/
def cleanRow (r : RawRecord) : Option CleanedRecord :=
  match r.title with
  | none => none
  | some t =>
    match extract_year r.publish_time with
    | none => none
    | some y =>
      if 2000 < y then
        some
          { cord_uid := r.cord_uid
            title := t
            abstract := r.abstract
            journal := pyStrip ((r.journal).getD "Unknown")
            publish_time := r.publish_time
            authors := r.authors
            url := r.url
            source_x := r.source_x
            year := y
            abstract_word_count := abstractWordCount r.abstract }
      else none

/-- The Cleaner on the table of rows (the row-wise part of
`load_and_clean_data`). -/
def clean (rows : List RawRecord) : List CleanedRecord :=
  rows.filterMap cleanRow

/-- Raw table: the DataFrame produced by `pd.read_csv`.  `hasSourceX` records
whether the optional `source_x` column is present in the file at all; when it
is absent every row has `source_x = none` and `df_clean['source_x']` raises a
`KeyError`. -/
structure RawTable where
  rows : List RawRecord
  hasSourceX : Bool
  deriving DecidableEq, Repr

/-- Cleaned table returned by `load_and_clean_data`. -/
structure CleanedTable where
  rows : List CleanedRecord
  hasSourceX : Bool
  deriving DecidableEq, Repr

/-- Model of `load_and_clean_data` (lines 8-73 of the source), minus the file
I/O and logging: clean the rows; the set of columns is untouched, so the
presence of `source_x` carries over. -/
def load_and_clean_data (t : RawTable) : CleanedTable :=
  ⟨clean t.rows, t.hasSourceX⟩

/-- A cleaned row viewed again as a raw row, as happens when the cleaning
pipeline is re-run on its own output: `title` and `journal` are present
(non-null) columns, the derived `year` and `abstract_word_count` columns are
recomputed from scratch by the pipeline and therefore not part of the raw
view. -/
def cleanedToRaw (c : CleanedRecord) : RawRecord :=
  { cord_uid := c.cord_uid
    title := some c.title
    abstract := c.abstract
    journal := some c.journal
    publish_time := c.publish_time
    authors := c.authors
    url := c.url
    source_x := c.source_x }

/-- Running the Cleaner a second time, on its own output. -/
def reclean (rows : List CleanedRecord) : List CleanedRecord :=
  clean (rows.map cleanedToRaw)

theorem cleanRow_some {r : RawRecord} {c : CleanedRecord}
    (h : cleanRow r = some c) :
    r.title = some c.title ∧
    extract_year r.publish_time = some c.year ∧
    2000 < c.year ∧
    c.cord_uid = r.cord_uid ∧
    c.abstract = r.abstract ∧
    c.journal = pyStrip ((r.journal).getD "Unknown") ∧
    c.publish_time = r.publish_time ∧
    c.authors = r.authors ∧
    c.url = r.url ∧
    c.source_x = r.source_x ∧
    c.abstract_word_count = abstractWordCount r.abstract := by
  obtain ⟨uid, rtitle, rabs, rjour, rpub, rauth, rurl, rsrc⟩ := r
  rcases rtitle with _ | t
  · simp [cleanRow] at h
  · rcases hy : extract_year rpub with _ | y
    · simp [cleanRow, hy] at h
    · by_cases h2 : 2000 < y
      · rw [show cleanRow ⟨uid, some t, rabs, rjour, rpub, rauth, rurl, rsrc⟩ =
              (if 2000 < y then
                some
                  { cord_uid := uid
                    title := t
                    abstract := rabs
                    journal := pyStrip (rjour.getD "Unknown")
                    publish_time := rpub
                    authors := rauth
                    url := rurl
                    source_x := rsrc
                    year := y
                    abstract_word_count := abstractWordCount rabs }
              else none) by simp [cleanRow, hy], if_pos h2] at h
        injection h with h
        subst h
        exact ⟨rfl, rfl, h2, rfl, rfl, rfl, rfl, rfl, rfl, rfl, rfl⟩
      · simp [cleanRow, hy, h2] at h

/-! ### Aggregation primitives -/

/-- Helper for `uniqueKeys`: distinct values of the input in first-occurrence
order, skipping those already `seen`. -/
def uniqueKeysAux (seen : List String) : List String → List String
  | [] => []
  | x :: xs =>
    if seen.contains x then uniqueKeysAux seen xs
    else x :: uniqueKeysAux (x :: seen) xs

/-- Distinct values of a list in first-occurrence order: the key order of a
pandas `value_counts` / `collections.Counter`, which iterate in insertion
order. -/
def uniqueKeys (l : List String) : List String := uniqueKeysAux [] l

theorem mem_uniqueKeysAux {a : String} :
    ∀ {l seen : List String}, a ∈ uniqueKeysAux seen l → a ∈ l := by
  intro l
  induction l with
  | nil =>
    intro seen h
    simp [uniqueKeysAux] at h
  | cons x xs ih =>
    intro seen h
    by_cases hx : seen.contains x
    · simp only [uniqueKeysAux, hx, if_true] at h
      exact List.mem_cons_of_mem x (ih h)
    · simp only [uniqueKeysAux, hx, Bool.false_eq_true, if_false] at h
      rcases List.mem_cons.mp h with h | h
      · exact h ▸ List.mem_cons_self x xs
      · exact List.mem_cons_of_mem x (ih h)

theorem mem_uniqueKeys {a : String} {l : List String}
    (h : a ∈ uniqueKeys l) : a ∈ l :=
  mem_uniqueKeysAux h

/-- Stable insertion into a count-descending list: the new entry goes in
front of the first entry whose count is not larger. -/
def insertDesc (p : String × Nat) : List (String × Nat) → List (String × Nat)
  | [] => [p]
  | q :: qs => if q.2 ≤ p.2 then p :: q :: qs else q :: insertDesc p qs

/-- Stable sort by count descending, as produced by the count-then-sort
operations of the source (`value_counts`, `sort_values(ascending=False)`).
Entries with equal counts keep their first-occurrence order. -/
def sortDesc (l : List (String × Nat)) : List (String × Nat) :=
  l.foldr insertDesc []

theorem mem_insertDesc {p x : String × Nat} :
    ∀ {l : List (String × Nat)}, x ∈ insertDesc p l ↔ x = p ∨ x ∈ l := by
  intro l
  induction l with
  | nil => simp [insertDesc]
  | cons q qs ih =>
    by_cases hq : q.2 ≤ p.2
    · simp [insertDesc, hq]
    · simp only [insertDesc, hq, if_false, List.mem_cons, ih]
      tauto

theorem mem_sortDesc {x : String × Nat} :
    ∀ {l : List (String × Nat)}, x ∈ sortDesc l ↔ x ∈ l := by
  intro l
  induction l with
  | nil => simp [sortDesc]
  | cons q qs ih =>
    show x ∈ insertDesc q (sortDesc qs) ↔ _
    rw [mem_insertDesc]
    simp [ih]

theorem pairwise_insertDesc {p : String × Nat} :
    ∀ {l : List (String × Nat)},
      l.Pairwise (fun a b => b.2 ≤ a.2) →
      (insertDesc p l).Pairwise (fun a b => b.2 ≤ a.2) := by
  intro l
  induction l with
  | nil =>
    intro h
    simp [insertDesc]
  | cons q qs ih =>
    intro h
    rw [List.pairwise_cons] at h
    obtain ⟨h1, h2⟩ := h
    by_cases hq : q.2 ≤ p.2
    · simp only [insertDesc, hq, if_true]
      rw [List.pairwise_cons]
      refine ⟨?_, ?_⟩
      · intro x hx
        rcases List.mem_cons.mp hx with h | h
        · exact h ▸ hq
        · exact le_trans (h1 x h) hq
      · rw [List.pairwise_cons]
        exact ⟨h1, h2⟩
    · simp only [insertDesc, hq, if_false]
      rw [List.pairwise_cons]
      refine ⟨?_, ih h2⟩
      intro x hx
      rcases mem_insertDesc.mp hx with h | h
      · exact h ▸ le_of_lt (lt_of_not_le hq)
      · exact h1 x h

theorem pairwise_sortDesc (l : List (String × Nat)) :
    (sortDesc l).Pairwise (fun a b => b.2 ≤ a.2) := by
  induction l with
  | nil => simp [sortDesc]
  | cons q qs ih => exact pairwise_insertDesc ih

/-- Model of pandas `Series.value_counts()` on a list of (non-null) values:
occurrence counts of the distinct values, count-descending. -/
def value_counts (l : List String) : List (String × Nat) :=
  sortDesc ((uniqueKeys l).map (fun v => (v, l.count v)))

theorem mem_value_counts {p : String × Nat} {l : List String}
    (h : p ∈ value_counts l) : p.1 ∈ l ∧ p.2 = l.count p.1 := by
  rw [value_counts, mem_sortDesc] at h
  obtain ⟨v, hv, hp⟩ := List.mem_map.mp h
  exact ⟨by rw [← hp]; exact mem_uniqueKeys hv, by rw [← hp]⟩

theorem count_filterMap_source {l : List CleanedRecord} {v : String} :
    (l.filterMap (fun c => c.source_x)).count v =
      (l.filter (fun c => decide (c.source_x = some v))).length := by
  induction l with
  | nil => rfl
  | cons a l ih =>
    rw [List.filterMap_cons, List.filter_cons]
    cases hf : a.source_x with
    | none => simpa using ih
    | some b =>
      by_cases hbv : b = v
      · subst hbv
        simp [List.count_cons, ih]
      · simp [List.count_cons, hbv, ih]

/-! ### Aggregate views (`analyze_data`, lines 75-112 of the source) -/

/-- Model of lines 90-92 of the source: drop rows whose journal is the
sentinel, count the remaining journal values, keep the top 15
(`value_counts().head(15)`). -/
def top_journals (rows : List CleanedRecord) : List (String × Nat) :=
  (value_counts ((rows.filter (fun c => c.journal != "Unknown")).map
    (fun c => c.journal))).take 15

/-- Model of Python `str.lower()`: lowercase every character. -/
def pyLower (s : String) : String := ⟨s.data.map Char.toLower⟩

/-- Model of line 95 of the source: join the lowercased titles with single
spaces.  Cleaned titles are never null, so the `dropna()` of that line keeps
every row. -/
def all_titles (rows : List CleanedRecord) : String :=
  String.intercalate " " (rows.map (fun c => pyLower c.title))

/-- Model of `re.findall(r'\b[a-z]{3,15}\b', s)`, line 97 of the source.  A
regex match is a run of 3..15 lowercase letters with a word boundary on each
side.  A word boundary separates a word character (letter, digit or
underscore) from a non-word character or the edge of the string, and
lowercase letters are themselves word characters, so the matches are exactly
the maximal runs of word characters that consist solely of lowercase letters
and have length 3..15.  In particular a letter run directly adjacent to a
digit or an underscore is not matched, and a run longer than 15 letters
yields nothing at all. -/
def findallWords (s : String) : List String :=
  ((runsBy isWordChar s.data).filter
    (fun w => w.all Char.isLower && decide (3 ≤ w.length) &&
      decide (w.length ≤ 15))).map (fun w => ⟨w⟩)

/-- Stopword set of lines 100-101 of the source. -/
def stopwords : List String :=
  ["the", "and", "of", "in", "to", "a", "for", "with", "on", "by",
   "as", "an", "from", "that", "is", "are", "this", "which", "be", "at"]

/-- Model of lines 94-104 of the source: tally the words of the concatenated
lowercased titles (`Counter` keys iterate in first-occurrence order), drop
the stopwords, sort by count descending and keep the top 20. -/
def title_words (rows : List CleanedRecord) : List (String × Nat) :=
  (sortDesc (((uniqueKeys (findallWords (all_titles rows))).map
      (fun w => (w, (findallWords (all_titles rows)).count w))).filter
    (fun p => !stopwords.contains p.1))).take 20

/-- Model of line 107 of the source: the sequence of per-record abstract word
counts, not aggregated further. -/
def abstract_lengths (rows : List CleanedRecord) : List Nat :=
  rows.map (fun c => c.abstract_word_count)

/-- Model of line 110 of the source,
`df_clean['source_x'].value_counts().head(10)`: when the `source_x` column is
absent from the table the column access raises a `KeyError`; otherwise null
values are dropped (the `value_counts` default) and the top 10 counts are
returned. -/
def source_counts (t : CleanedTable) : Except String (List (String × Nat)) :=
  if t.hasSourceX then
    Except.ok ((value_counts (t.rows.filterMap (fun c => c.source_x))).take 10)
  else
    Except.error "KeyError: source_x"

/-! ### Definitions modelled from the specification text

These follow the words of the spec rather than the code; they exist only to
be compared against the code-derived definitions above. -/

/-- Modelled from the spec (section 4.2) for claim C2: treat the date field
as text; search for the first run of exactly four consecutive digit
characters (that is, the first maximal digit run whose length is exactly
four); if found, parse it as the year; if not found, or if the field is
absent, mark the year as missing. -/
def extractYearExactRun : Option String → Option Nat
  | none => none
  | some s =>
    (((runsBy Char.isDigit s.data).filter
      (fun w => w.length == 4)).head?).map parseDigits

/-- Modelled from the spec (section 4.3) for claim C3: a word is a maximal
run of 3..15 lowercase Latin letters bounded by non-letter boundaries;
punctuation and digits are never part of a word. -/
def claimWords (s : String) : List String :=
  ((runsBy Char.isLower s.data).filter
    (fun w => decide (3 ≤ w.length) && decide (w.length ≤ 15))).map
    (fun w => ⟨w⟩)

/-- The Title Word Frequencies view as the claim for C3 defines it: the tally
of `claimWords` with stopwords removed, count-descending, top 20. -/
def title_words_claimSpec (rows : List CleanedRecord) : List (String × Nat) :=
  (sortDesc (((uniqueKeys (claimWords (all_titles rows))).map
      (fun w => (w, (claimWords (all_titles rows)).count w))).filter
    (fun p => !stopwords.contains p.1))).take 20

/-! ### Frame projections for the Cleaner -/

/-- All raw fields except `journal`, in a fixed order. -/
def rawFrame (r : RawRecord) :
    Option String × Option String × Option String × Option String ×
      Option String × Option String × Option String :=
  (r.cord_uid, r.title, r.abstract, r.publish_time, r.authors, r.url,
    r.source_x)

/-- The fields of `rawFrame` as read back from a cleaned record. -/
def cleanedFrame (c : CleanedRecord) :
    Option String × Option String × Option String × Option String ×
      Option String × Option String × Option String :=
  (c.cord_uid, some c.title, c.abstract, c.publish_time, c.authors, c.url,
    c.source_x)


theorem pyStrip_idempotent (s : String) : pyStrip (pyStrip s) = pyStrip s :=
  congrArg String.mk (pyStripChars_idempotent s.data)

theorem mem_findallWords {w s : String} (h : w ∈ findallWords s) :
    3 ≤ w.length ∧ w.length ≤ 15 ∧ ∀ ch ∈ w.data, ch.isLower = true := by
  unfold findallWords at h
  obtain ⟨run, hrun, hw⟩ := List.mem_map.mp h
  obtain ⟨-, hpred⟩ := List.mem_filter.mp hrun
  simp only [Bool.and_eq_true, decide_eq_true_eq, List.all_eq_true] at hpred
  obtain ⟨⟨hlow, h3⟩, h15⟩ := hpred
  subst hw
  exact ⟨h3, h15, hlow⟩

/-! ### Concrete instances -/

/-- A well-formed raw row: padded journal, ISO date, no abstract. -/
def rowNature : RawRecord :=
  ⟨none, some "COVID Study", none, some "  Nature  ", some "2021-03-15",
    none, none, some "PMC"⟩

/-- Its cleaned form. -/
def cleanedNature : CleanedRecord :=
  ⟨none, "COVID Study", none, "Nature", some "2021-03-15", none, none,
    some "PMC", 2021, 0⟩

/-- A raw row whose journal is whitespace only and whose abstract is a single
space. -/
def rowBlankJournal : RawRecord :=
  ⟨none, some "T", some " ", some "   ", some "2021-01-01", none, none, none⟩

/-- A raw row with no title. -/
def rowNoTitle : RawRecord :=
  ⟨none, none, none, none, some "2021-01-01", none, none, none⟩

/-- A raw row dated before the year cutoff. -/
def rowOldYear : RawRecord :=
  ⟨none, some "Old", none, none, some "1999-05-05", none, none, none⟩

/-- A raw row whose date has no four consecutive digits. -/
def rowUnknownDate : RawRecord :=
  ⟨none, some "T", none, none, some "unknown date", none, none, none⟩

/-- A raw row with a null journal. -/
def rowNullJournal : RawRecord :=
  ⟨none, some "T", none, none, some "2021-01-01", none, none, none⟩

/-- Cleaned form of `rowNullJournal`. -/
def cleanedNullJournal : CleanedRecord :=
  ⟨none, "T", none, "Unknown", some "2021-01-01", none, none, none, 2021, 0⟩

/-- A cleaned row whose title is a letter run glued to digits. -/
def cleanedCovid19 : CleanedRecord :=
  ⟨none, "covid19", none, "Nature", some "2021-01-01", none, none, none,
    2021, 0⟩

/-- A cleaned row with a present source. -/
def cleanedPMC : CleanedRecord :=
  ⟨none, "T", none, "Nature", some "2021-01-01", none, none, some "PMC",
    2021, 0⟩

/-- A raw table without the optional `source_x` column. -/
def tableNoSource : RawTable := ⟨[rowNature], false⟩

/-- A cleaned table with the `source_x` column present. -/
def tableWithSource : CleanedTable := ⟨[cleanedPMC], true⟩

/-! ### Claims -/

/-- Claim C1, amended.  For every record in the cleaned table the journal
field is the raw value trimmed of surrounding whitespace when the raw value
is present — which yields the empty string when the raw value consists
entirely of whitespace — and the sentinel "Unknown" when the raw value is
absent; whenever the cleaned journal is nonempty it contains a
non-whitespace character, so it is never a nonempty purely-whitespace
string. -/
theorem journal_filled_trimmed (r : RawRecord) (c : CleanedRecord)
    (h : cleanRow r = some c) :
    c.journal = pyStrip ((r.journal).getD "Unknown") ∧
    (r.journal = none → c.journal = "Unknown") ∧
    (c.journal ≠ "" → ∃ ch ∈ c.journal.data, ch.isWhitespace = false) := by
  have h6 := (cleanRow_some h).2.2.2.2.2.1
  refine ⟨h6, ?_, ?_⟩
  · intro hn
    rw [h6, hn]
    decide
  · intro hne
    rw [h6] at hne ⊢
    have hnil : pyStripChars ((r.journal).getD "Unknown").data ≠ [] := by
      intro hnil
      exact hne (congrArg String.mk hnil)
    exact pyStripChars_has_nonspace hnil

/-- Witness for `journal_filled_trimmed` at a concrete padded journal:
"  Nature  " is trimmed to "Nature". -/
theorem journal_filled_trimmed_witness :
    cleanedNature.journal = pyStrip ((rowNature.journal).getD "Unknown") :=
  (journal_filled_trimmed rowNature cleanedNature (by decide)).1

/-- Claim C1 as stated is false: a raw journal consisting only of whitespace
is present (not null), so it is not replaced by "Unknown", and stripping
leaves the empty string in the cleaned table. -/
theorem journal_whitespace_blank_cex :
    rowBlankJournal.journal = some "   " ∧
    (cleanRow rowBlankJournal).map CleanedRecord.journal = some "" :=
  ⟨rfl, by decide⟩

/-- Claim C5, amended.  For every cleaned record, `abstract_word_count`
equals the whitespace-delimited token count of the abstract when the
abstract is present and 0 when it is absent; it equals 0 exactly when the
abstract is absent or contains no non-whitespace character (so a present,
nonempty, purely-whitespace abstract also yields 0). -/
theorem abstract_word_count_tokens (r : RawRecord) (c : CleanedRecord)
    (h : cleanRow r = some c) :
    c.abstract_word_count = abstractWordCount r.abstract ∧
    (∀ a, r.abstract = some a → c.abstract_word_count = pySplitLen a) ∧
    (r.abstract = none → c.abstract_word_count = 0) ∧
    (c.abstract_word_count = 0 ↔
      (r.abstract = none ∨
        ∃ a, r.abstract = some a ∧ ∀ ch ∈ a.data, ch.isWhitespace = true)) := by
  have h11 := (cleanRow_some h).2.2.2.2.2.2.2.2.2.2
  refine ⟨h11, ?_, ?_, ?_⟩
  · intro a ha
    rw [h11, ha]
    rfl
  · intro ha
    rw [h11, ha]
    rfl
  · rw [h11]
    cases habs : r.abstract with
    | none => simp [abstractWordCount]
    | some a =>
      simp only [abstractWordCount, pySplitLen, List.length_eq_zero,
        runsBy_eq_nil_iff]
      constructor
      · intro hws
        refine Or.inr ⟨a, rfl, ?_⟩
        intro ch hch
        simpa using hws ch hch
      · rintro (hcontra | ⟨a2, ha2, hws⟩)
        · exact absurd hcontra (by simp)
        · injection ha2 with ha2
          subst ha2
          intro ch hch
          simpa using hws ch hch

/-- Witness for `abstract_word_count_tokens`: an absent abstract gives
count 0. -/
theorem abstract_word_count_tokens_witness :
    cleanedNature.abstract_word_count = 0 :=
  (abstract_word_count_tokens rowNature cleanedNature (by decide)).2.2.1 rfl

/-- Claim C5 as stated is false: a purely-whitespace abstract " " is present
and nonempty, yet its cleaned `abstract_word_count` is 0. -/
theorem abstract_word_count_whitespace_cex :
    rowBlankJournal.abstract = some " " ∧
    (" " : String) ≠ "" ∧
    (cleanRow rowBlankJournal).map CleanedRecord.abstract_word_count =
      some 0 :=
  ⟨rfl, by decide, by decide⟩

/-- Claim C6.  Every cleaned record has year strictly above 2000 (the year
is a `Nat` in this embedding, so it is an integer by construction); a raw
record with a null title, a failed year extraction, or an extracted year at
most 2000 is dropped. -/
theorem year_above_cutoff (r : RawRecord) :
    (∀ c, cleanRow r = some c → 2000 < c.year) ∧
    (r.title = none → cleanRow r = none) ∧
    (extract_year r.publish_time = none → cleanRow r = none) ∧
    (∀ y, extract_year r.publish_time = some y → y ≤ 2000 →
      cleanRow r = none) := by
  obtain ⟨uid, rt, ra, rj, rp, rau, ru, rs⟩ := r
  refine ⟨?_, ?_, ?_, ?_⟩
  · intro c h
    exact (cleanRow_some h).2.2.1
  · intro ht
    rw [show rt = (none : Option String) from ht]
    rfl
  · intro hy
    rcases rt with _ | t
    · rfl
    · simp [cleanRow, hy]
  · intro y hy hle
    rcases rt with _ | t
    · rfl
    · simp [cleanRow, hy, Nat.not_lt.mpr hle]

/-- Witness for `year_above_cutoff`: a titleless row and a 1999 row are both
dropped. -/
theorem year_above_cutoff_witness :
    cleanRow rowNoTitle = none ∧ cleanRow rowOldYear = none :=
  ⟨(year_above_cutoff rowNoTitle).2.1 rfl,
    (year_above_cutoff rowOldYear).2.2.2 1999 (by decide) (by decide)⟩

/-- Claim C2, amended.  `extract_year` treats a present date field as text
and scans for the earliest position at which four consecutive digit
characters start — the window may sit inside a longer digit run — parsing
those four digits as the year; if no such position exists, or the field is
absent, the year is missing.  An input row with
`publish_time = "2021-03-15"` yields cleaned year 2021 (and survives when
its title is present), and a row with `publish_time = "unknown date"` is
dropped. -/
theorem extract_year_first_window :
    extract_year none = none ∧
    (∀ s : String, (∀ i, fourDigitWindowAt s.data i = false) →
      extract_year (some s) = none) ∧
    (∀ (s : String) (i : Nat), fourDigitWindowAt s.data i = true →
      (∀ j < i, fourDigitWindowAt s.data j = false) →
      extract_year (some s) = some (parseDigits ((s.data.drop i).take 4))) ∧
    (∀ r : RawRecord, r.publish_time = some "2021-03-15" →
      ∀ c, cleanRow r = some c → c.year = 2021) ∧
    (∀ r : RawRecord, r.title ≠ none → r.publish_time = some "2021-03-15" →
      cleanRow r ≠ none) ∧
    (∀ r : RawRecord, r.publish_time = some "unknown date" →
      cleanRow r = none) := by
  refine ⟨rfl, ?_, ?_, ?_, ?_, ?_⟩
  · intro s h
    exact searchFourDigits_eq_none h
  · intro s i hi hmin
    exact searchFourDigits_eq_some hi hmin
  · intro r hpub c hc
    have h2 := (cleanRow_some hc).2.1
    rw [hpub] at h2
    have h0 : extract_year (some "2021-03-15") = some 2021 := by decide
    rw [h0] at h2
    injection h2 with h2
    exact h2.symm
  · intro r ht hpub
    rcases ht2 : r.title with _ | t
    · exact absurd ht2 ht
    · have h0 : extract_year (some "2021-03-15") = some 2021 := by decide
      simp [cleanRow, ht2, hpub, h0]
  · intro r hpub
    rcases ht2 : r.title with _ | t
    · simp [cleanRow, ht2]
    · have h0 : extract_year (some "unknown date") = none := by decide
      simp [cleanRow, ht2, hpub, h0]

/-- Witness for `extract_year_first_window`: the window at position 0 of
"2021-03-15" gives year 2021, and the "unknown date" row is dropped. -/
theorem extract_year_first_window_witness :
    extract_year (some "2021-03-15") =
      some (parseDigits ((("2021-03-15" : String).data.drop 0).take 4)) ∧
    cleanRow rowUnknownDate = none :=
  ⟨extract_year_first_window.2.2.1 "2021-03-15" 0 (by decide)
      (fun j hj => absurd hj (Nat.not_lt_zero j)),
    extract_year_first_window.2.2.2.2.2 rowUnknownDate rfl⟩

/-- Claim C2 as stated is false on the date text "12345": there is no run of
exactly four consecutive digit characters (the only maximal digit run has
length five), so the claim marks the year as missing, yet the code parses
the first four digits of the longer run and returns 1234. -/
theorem extract_year_exact_run_cex :
    extract_year (some "12345") = some 1234 ∧
    extractYearExactRun (some "12345") = none :=
  ⟨by decide, by decide⟩

theorem cleanRow_cleanedToRaw {r : RawRecord} {c : CleanedRecord}
    (h : cleanRow r = some c) : cleanRow (cleanedToRaw c) = some c := by
  obtain ⟨h1, h2, h3, h4, h5, h6, h7, h8, h9, h10, h11⟩ := cleanRow_some h
  have hy : extract_year c.publish_time = some c.year := by
    rw [h7]
    exact h2
  have hj : pyStrip ((some c.journal).getD "Unknown") = c.journal := by
    show pyStrip c.journal = c.journal
    rw [h6]
    exact pyStrip_idempotent _
  have hawc : abstractWordCount c.abstract = c.abstract_word_count := by
    rw [h5]
    exact h11.symm
  simp only [cleanRow, cleanedToRaw, hy, hj, hawc, if_pos h3]

/-- Claim C7.  The Cleaner is idempotent: re-running the cleaning pipeline
(title dropna, year extraction and filtering, abstract word count, journal
fill-and-strip) on its own output returns that output unchanged.  Every row
survives again with the same derived values, because the inputs of every
derivation (`publish_time`, `abstract`) are untouched by cleaning and
`str.strip` is idempotent on the already-stripped journal. -/
theorem cleaner_idempotent (rows : List RawRecord) :
    reclean (clean rows) = clean rows := by
  unfold reclean
  induction rows with
  | nil => rfl
  | cons r rest ih =>
    rcases hr : cleanRow r with _ | c
    · rw [show clean (r :: rest) = clean rest by
        simp [clean, List.filterMap_cons, hr]]
      exact ih
    · have hrc := cleanRow_cleanedToRaw hr
      rw [show clean (r :: rest) = c :: clean rest by
        simp [clean, List.filterMap_cons, hr]]
      rw [List.map_cons]
      rw [show clean (cleanedToRaw c :: (clean rest).map cleanedToRaw) =
            c :: clean ((clean rest).map cleanedToRaw) by
        simp [clean, List.filterMap_cons, hrc]]
      rw [ih]

/-- Claim C9.  The cleaned table is a subsequence of the raw table: no row is
added or reordered, and every surviving row keeps all raw fields other than
`journal` — title, abstract, publish_time, source_x and the passthrough
fields cord_uid, authors, url — unchanged.  The Cleaner only drops rows,
rewrites `journal`, and adds the derived `year` and `abstract_word_count`
fields. -/
theorem cleaner_frame (rows : List RawRecord) :
    ((clean rows).map cleanedFrame).Sublist (rows.map rawFrame) := by
  induction rows with
  | nil => simp [clean]
  | cons r rest ih =>
    rcases hr : cleanRow r with _ | c
    · rw [show clean (r :: rest) = clean rest by
        simp [clean, List.filterMap_cons, hr]]
      rw [List.map_cons]
      exact ih.cons _
    · have hfr : cleanedFrame c = rawFrame r := by
        obtain ⟨h1, h2, h3, h4, h5, h6, h7, h8, h9, h10, h11⟩ :=
          cleanRow_some hr
        unfold cleanedFrame rawFrame
        rw [h1, h4, h5, h7, h8, h9, h10]
      rw [show clean (r :: rest) = c :: clean rest by
        simp [clean, List.filterMap_cons, hr]]
      rw [List.map_cons, List.map_cons, hfr]
      exact ih.cons₂ _

/-- Claim C8.  The Top Journals view never contains the sentinel "Unknown",
has at most 15 entries, and is sorted by count descending; rows whose raw
journal was null were filled with "Unknown" during cleaning and are
therefore excluded from the view. -/
theorem top_journals_properties (rows : List CleanedRecord) :
    (∀ p ∈ top_journals rows, p.1 ≠ "Unknown") ∧
    (top_journals rows).length ≤ 15 ∧
    (top_journals rows).Pairwise (fun a b => b.2 ≤ a.2) ∧
    (∀ (r : RawRecord), r.journal = none →
      ∀ c, cleanRow r = some c → c.journal = "Unknown") := by
  refine ⟨?_, ?_, ?_, ?_⟩
  · intro p hp
    have hp1 : p ∈ value_counts
        ((rows.filter (fun c => c.journal != "Unknown")).map
          (fun c => c.journal)) :=
      List.mem_of_mem_take hp
    have hmem := (mem_value_counts hp1).1
    obtain ⟨cr, hcr, hjp⟩ := List.mem_map.mp hmem
    have hne := (List.mem_filter.mp hcr).2
    rw [← hjp]
    simpa using hne
  · exact List.length_take_le 15 _
  · exact List.Pairwise.sublist (List.take_sublist 15 _) (pairwise_sortDesc _)
  · intro r hj c hc
    rw [(cleanRow_some hc).2.2.2.2.2.1, hj]
    decide

/-- Witness for `top_journals_properties`: the single journal "Nature" shows
up in the view and differs from the sentinel, and a null journal becomes
"Unknown" after cleaning. -/
theorem top_journals_properties_witness :
    ("Nature", 1).1 ≠ "Unknown" ∧ cleanedNullJournal.journal = "Unknown" :=
  ⟨(top_journals_properties [cleanedNature]).1 ("Nature", 1) (by decide),
    (top_journals_properties []).2.2.2 rowNullJournal rfl cleanedNullJournal
      (by decide)⟩

/-- Claim C3, amended.  The Title Word Frequencies view tallies exactly the
maximal word-character runs of the concatenated lowercased titles that
consist solely of 3..15 lowercase letters (the regex word boundary separates
word characters — letters, digits, underscore — from non-word characters, so
a letter run glued to a digit or an underscore is not a word), with the
fixed stopword set removed; consequently no entry is a stopword, every entry
is a lowercase word of length 3..15 counted by its number of occurrences,
and the view has at most 20 entries sorted by count descending. -/
theorem title_words_properties (rows : List CleanedRecord) :
    (∀ p ∈ title_words rows,
      ¬p.1 ∈ stopwords ∧ 3 ≤ p.1.length ∧ p.1.length ≤ 15 ∧
      (∀ ch ∈ p.1.data, ch.isLower = true) ∧
      p.2 = (findallWords (all_titles rows)).count p.1) ∧
    (title_words rows).length ≤ 20 ∧
    (title_words rows).Pairwise (fun a b => b.2 ≤ a.2) := by
  refine ⟨?_, ?_, ?_⟩
  · intro p hp
    have hp1 : p ∈ sortDesc
        (((uniqueKeys (findallWords (all_titles rows))).map
          (fun w => (w, (findallWords (all_titles rows)).count w))).filter
          (fun q => !stopwords.contains q.1)) :=
      List.mem_of_mem_take hp
    rw [mem_sortDesc] at hp1
    obtain ⟨hmem, hstop⟩ := List.mem_filter.mp hp1
    obtain ⟨w, hw, hpw⟩ := List.mem_map.mp hmem
    have hwords : w ∈ findallWords (all_titles rows) := mem_uniqueKeys hw
    obtain ⟨h3, h15, hlow⟩ := mem_findallWords hwords
    refine ⟨by simpa using hstop, ?_, ?_, ?_, ?_⟩
    · rw [← hpw]
      exact h3
    · rw [← hpw]
      exact h15
    · rw [← hpw]
      exact hlow
    · rw [← hpw]
  · exact List.length_take_le 20 _
  · exact List.Pairwise.sublist (List.take_sublist 20 _) (pairwise_sortDesc _)

/-- Witness for `title_words_properties`: the title "COVID Study" puts the
word "covid" into the view, and "covid" is not a stopword. -/
theorem title_words_properties_witness :
    ¬("covid", 1).1 ∈ stopwords :=
  ((title_words_properties [cleanedNature]).1 ("covid", 1) (by decide)).1

/-- Claim C3 as stated is false on the title "covid19": under the claim's
definition (letter runs bounded by non-letter boundaries) "covid" is a word,
but the code's regex requires a word boundary and the digit "1" is a word
character, so the view tallies nothing. -/
theorem title_words_boundary_cex :
    title_words [cleanedCovid19] = [] ∧
    title_words_claimSpec [cleanedCovid19] = [("covid", 1)] :=
  ⟨by decide, by decide⟩

/-- Claim C4, amended.  When the optional `source_x` column is entirely
absent, cleaning still succeeds (it reads only title, abstract, journal and
publish_time), but the Source Distribution view is not silently empty: the
column access `df_clean['source_x']` raises a `KeyError`. -/
theorem source_counts_missing_column (t : RawTable)
    (h : t.hasSourceX = false) :
    (load_and_clean_data t).rows = clean t.rows ∧
    source_counts (load_and_clean_data t) =
      Except.error "KeyError: source_x" := by
  constructor
  · rfl
  · simp [source_counts, load_and_clean_data, h]

/-- Witness for `source_counts_missing_column` on a concrete one-row table
without the `source_x` column. -/
theorem source_counts_missing_column_witness :
    (load_and_clean_data tableNoSource).rows = clean tableNoSource.rows ∧
    source_counts (load_and_clean_data tableNoSource) =
      Except.error "KeyError: source_x" :=
  source_counts_missing_column tableNoSource rfl

/-- Claim C4 as stated is false: on a table without the `source_x` column
the Source Distribution computation returns a `KeyError` and in particular
not the empty mapping. -/
theorem source_counts_missing_column_cex :
    source_counts (load_and_clean_data tableNoSource) =
      Except.error "KeyError: source_x" ∧
    source_counts (load_and_clean_data tableNoSource) ≠ Except.ok [] := by
  refine ⟨rfl, ?_⟩
  intro hcontra
  rw [show source_counts (load_and_clean_data tableNoSource) =
        Except.error "KeyError: source_x" from rfl] at hcontra
  exact Except.noConfusion hcontra

/-- Claim C10.  Records with a null `source_x` are excluded from the Source
Distribution: every entry of the view counts exactly the rows carrying that
non-null value, even though cleaning itself keeps rows with a null
`source_x` (it copies `source_x` unchanged and row survival is independent
of it). -/
theorem source_distribution_nonnull (t : CleanedTable)
    (l : List (String × Nat)) (ht : t.hasSourceX = true)
    (hl : source_counts t = Except.ok l) :
    (∀ p ∈ l, (∃ c ∈ t.rows, c.source_x = some p.1) ∧
      p.2 = (t.rows.filter (fun c => decide (c.source_x = some p.1))).length) ∧
    (∀ (r : RawRecord) (c : CleanedRecord), cleanRow r = some c →
      c.source_x = r.source_x) ∧
    (∀ (r : RawRecord) (v : Option String),
      (cleanRow r).isSome = (cleanRow { r with source_x := v }).isSome) := by
  refine ⟨?_, ?_, ?_⟩
  · intro p hp
    simp only [source_counts, ht, if_true, Except.ok.injEq] at hl
    rw [← hl] at hp
    have hp1 : p ∈ value_counts (t.rows.filterMap (fun c => c.source_x)) :=
      List.mem_of_mem_take hp
    obtain ⟨hmem, hcount⟩ := mem_value_counts hp1
    constructor
    · obtain ⟨c, hc, hcs⟩ := List.mem_filterMap.mp hmem
      exact ⟨c, hc, hcs⟩
    · rw [hcount]
      exact count_filterMap_source
  · intro r c h
    exact (cleanRow_some h).2.2.2.2.2.2.2.2.2.1
  · intro r v
    obtain ⟨uid, rt, ra, rj, rp, rau, ru, rs⟩ := r
    rcases rt with _ | ti
    · rfl
    · rcases hy : extract_year rp with _ | y
      · simp [cleanRow, hy]
      · by_cases h2 : 2000 < y
        · simp [cleanRow, hy, h2]
        · simp [cleanRow, hy, h2]

/-- Witness for `source_distribution_nonnull` on a one-row table whose
source is "PMC". -/
theorem source_distribution_nonnull_witness :
    (∃ c ∈ tableWithSource.rows, c.source_x = some "PMC") ∧
    (1 : Nat) = (tableWithSource.rows.filter
      (fun c => decide (c.source_x = some "PMC"))).length :=
  (source_distribution_nonnull tableWithSource [("PMC", 1)] rfl rfl).1
    ("PMC", 1) (by decide)
